import Mathlib

/-!
Verification development for the AlexNet-from-scratch repository
(`Inbuilt_Modules_Vs_Custom2`): a shallow embedding of the two
numeric components implemented there —
`custom_LocalResponseNormalization.forward` and
`BatchNormalization.forward` / `update_params` — together with
theorems about them.

Numpy arrays are embedded as a shape (a list of dimension sizes)
paired with a total index function; elementwise binary operations
carry numpy's right-aligned broadcasting rule, Python slice bounds
are normalised the way CPython normalises them, and operations that
raise in Python return `Except`/`Option` errors here.  Float
arithmetic is idealised as exact arithmetic in a field, with the
transcendental operations `np.sqrt` and Python's `**` passed in as
explicit function parameters.
-/

/-- An n-dimensional numeric array: a shape together with a total
function from multi-indices to entries (entries at invalid indices
are junk, as with out-of-range reads being impossible in numpy). -/
structure NDArray (K : Type) where
  shape : List Nat
  data : List Nat → K

namespace NDArray

variable {K : Type} [Field K]

/-- `np.ones(shape)`. -/
def ones (s : List Nat) : NDArray K := ⟨s, fun _ => 1⟩

/-- `np.zeros(shape)` (also `np.zeros_like`). -/
def zeros (s : List Nat) : NDArray K := ⟨s, fun _ => 0⟩

/-- Elementwise unary map, e.g. `np.sqrt` applied to an array. -/
def emap (f : K → K) (A : NDArray K) : NDArray K :=
  ⟨A.shape, fun idx => f (A.data idx)⟩

/-- `scalar * array` (Python float times numpy array). -/
def scalarMul (a : K) (A : NDArray K) : NDArray K :=
  ⟨A.shape, fun idx => a * A.data idx⟩

/-- `array + scalar` (numpy array plus Python float). -/
def addScalar (A : NDArray K) (a : K) : NDArray K :=
  ⟨A.shape, fun idx => A.data idx + a⟩

end NDArray

/-- numpy's broadcast rule for one aligned dimension pair: equal
dimensions broadcast to themselves, a dimension of 1 stretches to the
other, anything else is an error. -/
def broadcastDim (a b : Nat) : Option Nat :=
  if a = b then some a else if a = 1 then some b else if b = 1 then some a else none

/-- numpy shape broadcasting on REVERSED shapes (numpy aligns shapes
from the trailing axis, so reversing turns that into head alignment);
a missing leading axis is treated as stretching. -/
def broadcastRev : List Nat → List Nat → Option (List Nat)
  | [], ys => some ys
  | xs, [] => some xs
  | x :: xs, y :: ys =>
    match broadcastDim x y, broadcastRev xs ys with
    | some d, some rest => some (d :: rest)
    | _, _ => none

/-- Map a (reversed) result multi-index back to a (reversed) operand
multi-index: stretched axes (operand dimension 1) read position 0,
missing leading axes are dropped. -/
def mapIdxRev : List Nat → List Nat → List Nat
  | [], _ => []
  | _ :: _, [] => []
  | d :: ds, i :: is => (if d = 1 then 0 else i) :: mapIdxRev ds is

/-- `idx` is a valid multi-index for shape `s` (same rank, each
coordinate strictly below the corresponding dimension). -/
def validIdx : List Nat → List Nat → Bool
  | [], [] => true
  | i :: is, d :: ds => decide (i < d) && validIdx is ds
  | _, _ => false

/-- Elementwise binary operation with numpy broadcasting; `none`
models the `ValueError: operands could not be broadcast together`. -/
def NDArray.binop {K : Type} (f : K → K → K) (A B : NDArray K) : Option (NDArray K) :=
  match broadcastRev A.shape.reverse B.shape.reverse with
  | none => none
  | some srev => some ⟨srev.reverse, fun idx =>
      f (A.data (mapIdxRev A.shape.reverse idx.reverse).reverse)
        (B.data (mapIdxRev B.shape.reverse idx.reverse).reverse)⟩

theorem broadcastRev_nil_right (xs : List Nat) : broadcastRev xs [] = some xs := by
  cases xs <;> rfl

theorem broadcastRev_nil_left (ys : List Nat) : broadcastRev [] ys = some ys := by
  cases ys <;> rfl

theorem broadcastDim_self (a : Nat) : broadcastDim a a = some a := by
  simp [broadcastDim]

theorem broadcastRev_append_right (xs zs : List Nat) :
    broadcastRev xs (xs ++ zs) = some (xs ++ zs) := by
  induction xs with
  | nil => simpa using broadcastRev_nil_left zs
  | cons x xs ih => simp [broadcastRev, broadcastDim_self, ih]

theorem broadcastRev_append_left (xs zs : List Nat) :
    broadcastRev (xs ++ zs) xs = some (xs ++ zs) := by
  induction xs with
  | nil => simpa using broadcastRev_nil_right zs
  | cons x xs ih => simp [broadcastRev, broadcastDim_self, ih]

theorem broadcastRev_self (xs : List Nat) : broadcastRev xs xs = some xs := by
  simpa using broadcastRev_append_right xs []

theorem validIdx_length : ∀ is ds : List Nat, validIdx is ds = true → is.length = ds.length := by
  intro is
  induction is with
  | nil => intro ds h; cases ds with
    | nil => rfl
    | cons d ds => simp [validIdx] at h
  | cons i is ih =>
    intro ds h
    cases ds with
    | nil => simp [validIdx] at h
    | cons d ds =>
      simp only [validIdx, Bool.and_eq_true] at h
      simp [ih ds h.2]

theorem validIdx_append : ∀ is ds is2 ds2 : List Nat, is.length = ds.length →
    validIdx (is ++ is2) (ds ++ ds2) = (validIdx is ds && validIdx is2 ds2) := by
  intro is
  induction is with
  | nil => intro ds is2 ds2 h
           cases ds with
           | nil => simp [validIdx]
           | cons d ds => simp at h
  | cons i is ih =>
    intro ds is2 ds2 h
    cases ds with
    | nil => simp at h
    | cons d ds =>
      simp only [List.cons_append, validIdx, List.append_eq]
      rw [ih ds is2 ds2 (by simpa using h)]
      simp [Bool.and_assoc]

theorem validIdx_reverse : ∀ is ds : List Nat, validIdx is ds = true →
    validIdx is.reverse ds.reverse = true := by
  intro is
  induction is with
  | nil => intro ds h; cases ds with
    | nil => simpa using h
    | cons d ds => simp [validIdx] at h
  | cons i is ih =>
    intro ds h
    cases ds with
    | nil => simp [validIdx] at h
    | cons d ds =>
      simp only [validIdx, Bool.and_eq_true, decide_eq_true_eq] at h
      have hlen : is.reverse.length = ds.reverse.length := by
        simpa using validIdx_length is ds h.2
      simp only [List.reverse_cons]
      rw [validIdx_append is.reverse ds.reverse [i] [d] hlen]
      have h1 : validIdx [i] [d] = true := by
        simp [validIdx, h.1]
      simp [ih ds h.2, h1]

theorem mapIdxRev_valid : ∀ ds is : List Nat, validIdx is ds = true →
    mapIdxRev ds is = is := by
  intro ds
  induction ds with
  | nil => intro is h; cases is with
    | nil => rfl
    | cons i is => simp [validIdx] at h
  | cons d ds ih =>
    intro is h
    cases is with
    | nil => simp [validIdx] at h
    | cons i is =>
      simp only [validIdx, Bool.and_eq_true, decide_eq_true_eq] at h
      simp only [mapIdxRev]
      rw [ih is h.2]
      rcases eq_or_ne d 1 with hd | hd
      · subst hd
        have : i = 0 := Nat.lt_one_iff.mp h.1
        simp [this]
      · simp [hd]

theorem mapIdxRev_prefix : ∀ ds is js : List Nat, is.length = ds.length →
    mapIdxRev ds (is ++ js) = mapIdxRev ds is := by
  intro ds
  induction ds with
  | nil => intro is js _; rfl
  | cons d ds ih =>
    intro is js h
    cases is with
    | nil => simp at h
    | cons i is =>
      simp only [List.cons_append, mapIdxRev, List.append_eq]
      rw [ih is js (by simpa using h)]

theorem mapIdxRev_append : ∀ ds es is js : List Nat, ds.length = is.length →
    mapIdxRev (ds ++ es) (is ++ js) = mapIdxRev ds is ++ mapIdxRev es js := by
  intro ds
  induction ds with
  | nil => intro es is js h
           cases is with
           | nil => rfl
           | cons i is => simp at h
  | cons d ds ih =>
    intro es is js h
    cases is with
    | nil => simp at h
    | cons i is =>
      simp only [List.cons_append, mapIdxRev, List.append_eq]
      rw [ih es is js (by simpa using h)]

theorem validIdx_cons (i d : Nat) (is ds : List Nat) :
    validIdx (i :: is) (d :: ds) = (decide (i < d) && validIdx is ds) := rfl

theorem mapIdxRev_single (n i : Nat) (hi : i < n) : mapIdxRev [n] [i] = [i] := by
  rcases eq_or_ne n 1 with h1 | h1
  · subst h1
    have : i = 0 := Nat.lt_one_iff.mp hi
    simp [mapIdxRev, this]
  · simp [mapIdxRev, h1]

theorem binop_same {K : Type} (f : K → K → K) (A B : NDArray K) (s : List Nat)
    (hA : A.shape = s) (hB : B.shape = s) :
    ∃ Cc, NDArray.binop f A B = some Cc ∧ Cc.shape = s ∧
      ∀ idx, validIdx idx s = true → Cc.data idx = f (A.data idx) (B.data idx) := by
  refine ⟨⟨s.reverse.reverse, fun idx =>
      f (A.data (mapIdxRev s.reverse idx.reverse).reverse)
        (B.data (mapIdxRev s.reverse idx.reverse).reverse)⟩, ?_, by simp, ?_⟩
  · unfold NDArray.binop
    rw [hA, hB, broadcastRev_self]
  · intro idx hv
    have hv2 := validIdx_reverse idx s hv
    dsimp only
    rw [mapIdxRev_valid s.reverse idx.reverse hv2, List.reverse_reverse]

theorem binop_batch_left {K : Type} (f : K → K → K) (A B : NDArray K) (n : Nat) (fs : List Nat)
    (hA : A.shape = n :: fs) (hB : B.shape = fs) :
    ∃ Cc, NDArray.binop f A B = some Cc ∧ Cc.shape = n :: fs ∧
      ∀ i idx, validIdx (i :: idx) (n :: fs) = true →
        Cc.data (i :: idx) = f (A.data (i :: idx)) (B.data idx) := by
  have hrevA : A.shape.reverse = fs.reverse ++ [n] := by rw [hA]; simp
  refine ⟨⟨(fs.reverse ++ [n]).reverse, fun idx =>
      f (A.data (mapIdxRev (fs.reverse ++ [n]) idx.reverse).reverse)
        (B.data (mapIdxRev fs.reverse idx.reverse).reverse)⟩, ?_, by simp, ?_⟩
  · unfold NDArray.binop
    rw [hrevA, hB, broadcastRev_append_left]
  · intro i idx hv
    simp only [validIdx_cons, Bool.and_eq_true, decide_eq_true_eq] at hv
    obtain ⟨hi, hidx⟩ := hv
    have hlen : fs.reverse.length = idx.reverse.length := by
      simp [validIdx_length idx fs hidx]
    have hv2 := validIdx_reverse idx fs hidx
    dsimp only
    simp only [List.reverse_cons]
    rw [mapIdxRev_append fs.reverse [n] idx.reverse [i] hlen,
        mapIdxRev_prefix fs.reverse idx.reverse [i] hlen.symm,
        mapIdxRev_valid fs.reverse idx.reverse hv2,
        mapIdxRev_single n i hi]
    simp

theorem binop_batch_right {K : Type} (f : K → K → K) (A B : NDArray K) (n : Nat) (fs : List Nat)
    (hA : A.shape = fs) (hB : B.shape = n :: fs) :
    ∃ Cc, NDArray.binop f A B = some Cc ∧ Cc.shape = n :: fs ∧
      ∀ i idx, validIdx (i :: idx) (n :: fs) = true →
        Cc.data (i :: idx) = f (A.data idx) (B.data (i :: idx)) := by
  have hrevB : B.shape.reverse = fs.reverse ++ [n] := by rw [hB]; simp
  refine ⟨⟨(fs.reverse ++ [n]).reverse, fun idx =>
      f (A.data (mapIdxRev fs.reverse idx.reverse).reverse)
        (B.data (mapIdxRev (fs.reverse ++ [n]) idx.reverse).reverse)⟩, ?_, by simp, ?_⟩
  · unfold NDArray.binop
    rw [hrevB, hA, broadcastRev_append_right]
  · intro i idx hv
    simp only [validIdx_cons, Bool.and_eq_true, decide_eq_true_eq] at hv
    obtain ⟨hi, hidx⟩ := hv
    have hlen : fs.reverse.length = idx.reverse.length := by
      simp [validIdx_length idx fs hidx]
    have hv2 := validIdx_reverse idx fs hidx
    dsimp only
    simp only [List.reverse_cons]
    rw [mapIdxRev_append fs.reverse [n] idx.reverse [i] hlen,
        mapIdxRev_prefix fs.reverse idx.reverse [i] hlen.symm,
        mapIdxRev_valid fs.reverse idx.reverse hv2,
        mapIdxRev_single n i hi]
    simp

/-- Normalise one bound of a Python slice `a[lo:hi]` on an axis of
length `L`: a negative bound counts from the end of the axis (clamped
below at 0), a non-negative bound is clamped above at `L`. -/
def pySliceBound (L : Nat) (i : Int) : Nat :=
  if i < 0 then (max 0 ((L : Int) + i)).toNat else min i.toNat L

/-- The channel window `[start:end]` of
`custom_LocalResponseNormalization.forward`:
`start = max(0, c - self.depth_radius // 2)` and
`end = min(C, c + self.depth_radius // 2 + 1)` (Python floor
division `//`), the resulting slice bounds then normalised by Python
slice semantics on the channel axis of length `C`. -/
def lrnWindow (r : Int) (C bc : Nat) : Finset Nat :=
  Finset.Ico (pySliceBound C (max 0 ((bc : Int) - r.fdiv 2)))
             (pySliceBound C (min (C : Int) ((bc : Int) + r.fdiv 2 + 1)))

/-- `custom_LocalResponseNormalization.__init__`: the four
configuration parameters, stored without any validation. -/
structure custom_LocalResponseNormalization (K : Type) where
  depth_radius : Int
  bias : K
  alpha : K
  beta : K

/-- `local_sum` in `custom_LocalResponseNormalization.forward`: the
sum of `np.square(X)` over the channel window, at one fixed
`(n, h, w)` position; `C` is the channel count `X.shape[1]`. -/
def lrnLocalSum {K : Type} [Field K] (cfg : custom_LocalResponseNormalization K)
    (X : NDArray K) (C bn bc bh bw : Nat) : K :=
  ∑ i ∈ lrnWindow cfg.depth_radius C bc, (X.data [bn, i, bh, bw]) ^ 2

/-- `scale = self.bias + (self.alpha * local_sum)` in
`custom_LocalResponseNormalization.forward`. -/
def lrnScale {K : Type} [Field K] (cfg : custom_LocalResponseNormalization K)
    (X : NDArray K) (C bn bc bh bw : Nat) : K :=
  cfg.bias + cfg.alpha * lrnLocalSum cfg X C bn bc bh bw

/-- `custom_LocalResponseNormalization.forward`: the tuple unpacking
`N, C, H, W = X.shape` raises unless the input is exactly
4-dimensional (the error case); otherwise every entry is divided by
`scale ** self.beta`, where `rpow` stands for Python float `**`. -/
def lrnForward {K : Type} [Field K] (rpow : K → K → K)
    (cfg : custom_LocalResponseNormalization K) (X : NDArray K) :
    Except String (NDArray K) :=
  match X.shape with
  | [n0, c0, h0, w0] =>
    .ok ⟨[n0, c0, h0, w0], fun idx =>
      match idx with
      | [bn, bc, bh, bw] =>
        X.data [bn, bc, bh, bw] / rpow (lrnScale cfg X c0 bn bc bh bw) cfg.beta
      | _ => 0⟩
  | _ => .error "not enough values to unpack"

theorem lrnWindow_nonneg_radius (r : Int) (C bc : Nat) (hr : 0 ≤ r) (hc : bc < C) :
    lrnWindow r C bc =
      Finset.Ico (max 0 ((bc : Int) - r.fdiv 2)).toNat
                 (min (C : Int) ((bc : Int) + r.fdiv 2 + 1)).toNat := by
  have hd : 0 ≤ r.fdiv 2 := Int.fdiv_nonneg hr (by norm_num)
  unfold lrnWindow pySliceBound
  congr 1 <;> split_ifs with h <;> omega

/-- One entry of `np.mean(X, axis=0)`: the mean over the leading axis
of length `n` at a fixed index into the remaining axes. -/
def meanEntryAt {K : Type} [Field K] (X : NDArray K) (n : Nat) (idx : List Nat) : K :=
  (∑ i ∈ Finset.range n, X.data (i :: idx)) / (n : K)

/-- One entry of `np.var(X, axis=0)`: the population variance over
the leading axis — mean of squared deviations, divisor `n` (not
`n - 1`). -/
def varEntryAt {K : Type} [Field K] (X : NDArray K) (n : Nat) (idx : List Nat) : K :=
  (∑ i ∈ Finset.range n, (X.data (i :: idx) - meanEntryAt X n idx) ^ 2) / (n : K)

/-- `np.mean(X, axis=0)`; `none` models the axis error numpy raises
when the input has no axes. -/
def meanAxis0 {K : Type} [Field K] (X : NDArray K) : Option (NDArray K) :=
  match X.shape with
  | [] => none
  | n :: rest => some ⟨rest, fun idx => meanEntryAt X n idx⟩

/-- `np.var(X, axis=0)` (population variance); `none` models the axis
error on a 0-dimensional input. -/
def varAxis0 {K : Type} [Field K] (X : NDArray K) : Option (NDArray K) :=
  match X.shape with
  | [] => none
  | n :: rest => some ⟨rest, fun idx => varEntryAt X n idx⟩

/-- The `BatchNormalization` instance state set up by `__init__`:
epsilon and momentum, plus the four lazily allocated arrays, all
`None` until the first `forward` call. -/
structure BatchNormalization (K : Type) where
  epsilon : K
  momentum : K
  gamma : Option (NDArray K)
  beta : Option (NDArray K)
  running_mean : Option (NDArray K)
  running_var : Option (NDArray K)

/-- `BatchNormalization(epsilon, momentum)`: a freshly constructed
instance. -/
def bnNew {K : Type} (epsilon momentum : K) : BatchNormalization K :=
  ⟨epsilon, momentum, none, none, none, none⟩

/-- `BatchNormalization.initialize_params`: gamma = ones, beta =
zeros, running_mean = zeros, running_var = ones, all of the given
feature shape. -/
def init_params {K : Type} [Field K] (s : BatchNormalization K) (shape : List Nat) :
    BatchNormalization K :=
  { s with
    gamma := some (NDArray.ones shape), beta := some (NDArray.zeros shape),
    running_mean := some (NDArray.zeros shape), running_var := some (NDArray.ones shape) }

/-- `BatchNormalization.update_params`: replaces gamma and beta, no
validation, leaves the running statistics untouched. -/
def update_params {K : Type} (s : BatchNormalization K) (gamma beta : NDArray K) :
    BatchNormalization K :=
  { s with gamma := some gamma, beta := some beta }

/-- Lift an optional value into `Except`: an absent value models a
Python exception (`TypeError` on `None` operands, `ValueError` on a
broadcast mismatch, axis errors from numpy reductions). -/
def liftOp {α : Type} (o : Option α) : Except String α :=
  match o with
  | some a => .ok a
  | none => .error "unsupported operand or broadcast mismatch"

/-- The body of `BatchNormalization.forward` after the lazy-init
guard, with the exact operation order of the source: in training
mode compute batch statistics, normalise, update the running
statistics, scale and shift; in inference mode normalise with the
running statistics and mutate nothing.  `sqrtf` stands for
`np.sqrt`. -/
def bnForwardCore {K : Type} [Field K] (sqrtf : K → K) (s : BatchNormalization K)
    (X : NDArray K) (training : Bool) :
    Except String (NDArray K × BatchNormalization K) := do
  let g ← liftOp s.gamma
  let b ← liftOp s.beta
  if training then
    let bm ← liftOp (meanAxis0 X)
    let bv ← liftOp (varAxis0 X)
    let num ← liftOp (NDArray.binop (fun a c => a - c) X bm)
    let xnorm ← liftOp (NDArray.binop (fun a c => a / c) num
      (NDArray.emap sqrtf (NDArray.addScalar bv s.epsilon)))
    let rm ← liftOp s.running_mean
    let rv ← liftOp s.running_var
    let rm2 ← liftOp (NDArray.binop (fun a c => a + c)
      (NDArray.scalarMul s.momentum rm) (NDArray.scalarMul (1 - s.momentum) bm))
    let rv2 ← liftOp (NDArray.binop (fun a c => a + c)
      (NDArray.scalarMul s.momentum rv) (NDArray.scalarMul (1 - s.momentum) bv))
    let t ← liftOp (NDArray.binop (fun a c => a * c) g xnorm)
    let out ← liftOp (NDArray.binop (fun a c => a + c) t b)
    pure (out, { s with running_mean := some rm2, running_var := some rv2 })
  else
    let rm ← liftOp s.running_mean
    let rv ← liftOp s.running_var
    let num ← liftOp (NDArray.binop (fun a c => a - c) X rm)
    let xnorm ← liftOp (NDArray.binop (fun a c => a / c) num
      (NDArray.emap sqrtf (NDArray.addScalar rv s.epsilon)))
    let t ← liftOp (NDArray.binop (fun a c => a * c) g xnorm)
    let out ← liftOp (NDArray.binop (fun a c => a + c) t b)
    pure (out, s)

/-- `BatchNormalization.forward`: when gamma or beta is unset the
parameters are first allocated from the observed feature shape
`X.shape[1:]`, then the normalization body runs. -/
def BatchNormalization.forward {K : Type} [Field K] (sqrtf : K → K)
    (s0 : BatchNormalization K) (X : NDArray K) (training : Bool) :
    Except String (NDArray K × BatchNormalization K) :=
  bnForwardCore sqrtf
    (if s0.gamma.isNone || s0.beta.isNone then init_params s0 X.shape.tail else s0)
    X training

theorem liftOp_some_bind {α β : Type} (a : α) (f : α → Except String β) :
    liftOp (some a) >>= f = f a := rfl

theorem forward_initialized {K : Type} [Field K] (sqrtf : K → K)
    (s : BatchNormalization K) (X : NDArray K) (tr : Bool) (g b : NDArray K)
    (hg : s.gamma = some g) (hb : s.beta = some b) :
    BatchNormalization.forward sqrtf s X tr = bnForwardCore sqrtf s X tr := by
  unfold BatchNormalization.forward
  rw [hg, hb]
  simp [Option.isNone]

theorem forward_fresh {K : Type} [Field K] (sqrtf : K → K) (eps mom : K)
    (X : NDArray K) (tr : Bool) :
    BatchNormalization.forward sqrtf (bnNew eps mom) X tr =
      bnForwardCore sqrtf (init_params (bnNew eps mom) X.shape.tail) X tr := by
  unfold BatchNormalization.forward bnNew
  simp [Option.isNone]

theorem bnForwardCore_train_spec {K : Type} [Field K] (sqrtf : K → K)
    (s : BatchNormalization K) (X : NDArray K)
    (g b rm rv : NDArray K) (N : Nat) (fs : List Nat)
    (hg : s.gamma = some g) (hgs : g.shape = fs)
    (hb : s.beta = some b) (hbs : b.shape = fs)
    (hrm : s.running_mean = some rm) (hrms : rm.shape = fs)
    (hrv : s.running_var = some rv) (hrvs : rv.shape = fs)
    (hX : X.shape = N :: fs) :
    ∃ out rm2 rv2,
      bnForwardCore sqrtf s X true =
        .ok (out, { s with running_mean := some rm2, running_var := some rv2 }) ∧
      out.shape = N :: fs ∧ rm2.shape = fs ∧ rv2.shape = fs ∧
      (∀ i idx, validIdx (i :: idx) (N :: fs) = true →
        out.data (i :: idx) =
          g.data idx * ((X.data (i :: idx) - meanEntryAt X N idx) /
            sqrtf (varEntryAt X N idx + s.epsilon)) + b.data idx) ∧
      (∀ idx, validIdx idx fs = true →
        rm2.data idx = s.momentum * rm.data idx + (1 - s.momentum) * meanEntryAt X N idx) ∧
      (∀ idx, validIdx idx fs = true →
        rv2.data idx = s.momentum * rv.data idx + (1 - s.momentum) * varEntryAt X N idx) := by
  have eBM : meanAxis0 X = some ⟨fs, fun idx => meanEntryAt X N idx⟩ := by
    unfold meanAxis0; rw [hX]
  have eBV : varAxis0 X = some ⟨fs, fun idx => varEntryAt X N idx⟩ := by
    unfold varAxis0; rw [hX]
  obtain ⟨NUM, eNUM, sNUM, dNUM⟩ :=
    binop_batch_left (fun a c => a - c) X ⟨fs, fun idx => meanEntryAt X N idx⟩ N fs hX rfl
  obtain ⟨XN, eXN, sXN, dXN⟩ :=
    binop_batch_left (fun a c => a / c) NUM
      (NDArray.emap sqrtf (NDArray.addScalar ⟨fs, fun idx => varEntryAt X N idx⟩ s.epsilon))
      N fs sNUM rfl
  obtain ⟨RM2, eRM2, sRM2, dRM2⟩ :=
    binop_same (fun a c => a + c)
      (NDArray.scalarMul s.momentum rm)
      (NDArray.scalarMul (1 - s.momentum) ⟨fs, fun idx => meanEntryAt X N idx⟩) fs hrms rfl
  obtain ⟨RV2, eRV2, sRV2, dRV2⟩ :=
    binop_same (fun a c => a + c)
      (NDArray.scalarMul s.momentum rv)
      (NDArray.scalarMul (1 - s.momentum) ⟨fs, fun idx => varEntryAt X N idx⟩) fs hrvs rfl
  obtain ⟨T1, eT1, sT1, dT1⟩ :=
    binop_batch_right (fun a c => a * c) g XN N fs hgs sXN
  obtain ⟨OUT, eOUT, sOUT, dOUT⟩ :=
    binop_batch_left (fun a c => a + c) T1 b N fs sT1 hbs
  refine ⟨OUT, RM2, RV2, ?_, sOUT, sRM2, sRV2, ?_, ?_, ?_⟩
  · unfold bnForwardCore
    rw [hg, hb]
    simp only [liftOp_some_bind, if_true, eBM, eBV, eNUM, eXN, hrm, hrv,
      eRM2, eRV2, eT1, eOUT]
    rfl
  · intro i idx hv
    rw [dOUT i idx hv, dT1 i idx hv, dXN i idx hv, dNUM i idx hv]
    dsimp [NDArray.emap, NDArray.addScalar]
  · intro idx hv
    rw [dRM2 idx hv]
    dsimp [NDArray.scalarMul]
  · intro idx hv
    rw [dRV2 idx hv]
    dsimp [NDArray.scalarMul]

theorem bnForwardCore_infer_spec {K : Type} [Field K] (sqrtf : K → K)
    (s : BatchNormalization K) (X : NDArray K)
    (g b rm rv : NDArray K) (N : Nat) (fs : List Nat)
    (hg : s.gamma = some g) (hgs : g.shape = fs)
    (hb : s.beta = some b) (hbs : b.shape = fs)
    (hrm : s.running_mean = some rm) (hrms : rm.shape = fs)
    (hrv : s.running_var = some rv) (hrvs : rv.shape = fs)
    (hX : X.shape = N :: fs) :
    ∃ out,
      bnForwardCore sqrtf s X false = .ok (out, s) ∧
      out.shape = N :: fs ∧
      (∀ i idx, validIdx (i :: idx) (N :: fs) = true →
        out.data (i :: idx) =
          g.data idx * ((X.data (i :: idx) - rm.data idx) /
            sqrtf (rv.data idx + s.epsilon)) + b.data idx) := by
  obtain ⟨NUM, eNUM, sNUM, dNUM⟩ :=
    binop_batch_left (fun a c => a - c) X rm N fs hX hrms
  obtain ⟨XN, eXN, sXN, dXN⟩ :=
    binop_batch_left (fun a c => a / c) NUM
      (NDArray.emap sqrtf (NDArray.addScalar rv s.epsilon)) N fs sNUM
      (by simpa [NDArray.emap, NDArray.addScalar] using hrvs)
  obtain ⟨T1, eT1, sT1, dT1⟩ :=
    binop_batch_right (fun a c => a * c) g XN N fs hgs sXN
  obtain ⟨OUT, eOUT, sOUT, dOUT⟩ :=
    binop_batch_left (fun a c => a + c) T1 b N fs sT1 hbs
  refine ⟨OUT, ?_, sOUT, ?_⟩
  · unfold bnForwardCore
    rw [hg, hb, hrm, hrv]
    simp only [liftOp_some_bind, Bool.false_eq_true, if_false, eNUM, eXN, eT1, eOUT]
    rfl
  · intro i idx hv
    rw [dOUT i idx hv, dT1 i idx hv, dXN i idx hv, dNUM i idx hv]
    dsimp [NDArray.emap, NDArray.addScalar]

theorem broadcastDim_none_iff (a b : Nat) :
    broadcastDim a b = none ↔ a ≠ b ∧ a ≠ 1 ∧ b ≠ 1 := by
  unfold broadcastDim
  split_ifs with h1 h2 h3 <;> simp_all

theorem broadcastRev_none_comm : ∀ xs ys : List Nat, broadcastRev xs ys = none →
    broadcastRev ys xs = none := by
  intro xs
  induction xs with
  | nil => intro ys h; rw [broadcastRev_nil_left ys] at h; cases h
  | cons x xs ih =>
    intro ys h
    cases ys with
    | nil => rw [broadcastRev_nil_right] at h; cases h
    | cons y ys =>
      simp only [broadcastRev] at h ⊢
      cases hd : broadcastDim x y with
      | none =>
        have hd2 : broadcastDim y x = none := by
          rw [broadcastDim_none_iff] at hd ⊢
          tauto
        rw [hd2]
      | some d =>
        rw [hd] at h
        cases hr : broadcastRev xs ys with
        | none =>
          rw [ih ys hr]
          cases broadcastDim y x <;> rfl
        | some r => rw [hr] at h; cases h

theorem broadcastRev_none_append_left : ∀ xs ys zs : List Nat,
    broadcastRev xs ys = none → broadcastRev (xs ++ zs) ys = none := by
  intro xs
  induction xs with
  | nil => intro ys zs h; rw [broadcastRev_nil_left ys] at h; cases h
  | cons x xs ih =>
    intro ys zs h
    cases ys with
    | nil => rw [broadcastRev_nil_right] at h; cases h
    | cons y ys =>
      simp only [List.cons_append, broadcastRev, List.append_eq] at h ⊢
      cases hd : broadcastDim x y with
      | none => rfl
      | some d =>
        rw [hd] at h
        cases hr : broadcastRev xs ys with
        | none => rw [ih ys zs hr]
        | some r => rw [hr] at h; cases h

theorem liftOp_none_bind {α β : Type} (f : α → Except String β) :
    liftOp (none : Option α) >>= f =
      .error "unsupported operand or broadcast mismatch" := rfl

theorem bnForwardCore_state {K : Type} [Field K] (sqrtf : K → K)
    (s : BatchNormalization K) (X : NDArray K) (tr : Bool)
    (Y : NDArray K) (s2 : BatchNormalization K) (g b : NDArray K)
    (hg : s.gamma = some g) (hb : s.beta = some b)
    (h : bnForwardCore sqrtf s X tr = .ok (Y, s2)) :
    s2.gamma = some g ∧ s2.beta = some b := by
  unfold bnForwardCore at h
  rw [hg, hb] at h
  simp only [liftOp_some_bind] at h
  cases tr with
  | false =>
    simp only [Bool.false_eq_true, if_false] at h
    cases hrm : s.running_mean with
    | none => rw [hrm, liftOp_none_bind] at h; cases h
    | some rm =>
      rw [hrm] at h; simp only [liftOp_some_bind] at h
      cases hrv : s.running_var with
      | none => rw [hrv, liftOp_none_bind] at h; cases h
      | some rv =>
        rw [hrv] at h; simp only [liftOp_some_bind] at h
        cases hnum : NDArray.binop (fun a c => a - c) X rm with
        | none => rw [hnum, liftOp_none_bind] at h; cases h
        | some num =>
          rw [hnum] at h; simp only [liftOp_some_bind] at h
          cases hxn : NDArray.binop (fun a c => a / c) num
              (NDArray.emap sqrtf (rv.addScalar s.epsilon)) with
          | none => rw [hxn, liftOp_none_bind] at h; cases h
          | some xn =>
            rw [hxn] at h; simp only [liftOp_some_bind] at h
            cases ht : NDArray.binop (fun a c => a * c) g xn with
            | none => rw [ht, liftOp_none_bind] at h; cases h
            | some t =>
              rw [ht] at h; simp only [liftOp_some_bind] at h
              cases hout : NDArray.binop (fun a c => a + c) t b with
              | none => rw [hout, liftOp_none_bind] at h; cases h
              | some out =>
                rw [hout] at h; simp only [liftOp_some_bind] at h
                simp only [pure, Except.pure, Except.ok.injEq, Prod.mk.injEq] at h
                obtain ⟨h1, h2⟩ := h
                subst h2
                exact ⟨hg, hb⟩
  | true =>
    simp only [if_true] at h
    cases hbm : meanAxis0 X with
    | none => rw [hbm, liftOp_none_bind] at h; cases h
    | some bm =>
      rw [hbm] at h; simp only [liftOp_some_bind] at h
      cases hbv : varAxis0 X with
      | none => rw [hbv, liftOp_none_bind] at h; cases h
      | some bv =>
        rw [hbv] at h; simp only [liftOp_some_bind] at h
        cases hnum : NDArray.binop (fun a c => a - c) X bm with
        | none => rw [hnum, liftOp_none_bind] at h; cases h
        | some num =>
          rw [hnum] at h; simp only [liftOp_some_bind] at h
          cases hxn : NDArray.binop (fun a c => a / c) num
              (NDArray.emap sqrtf (bv.addScalar s.epsilon)) with
          | none => rw [hxn, liftOp_none_bind] at h; cases h
          | some xn =>
            rw [hxn] at h; simp only [liftOp_some_bind] at h
            cases hrm : s.running_mean with
            | none => rw [hrm, liftOp_none_bind] at h; cases h
            | some rm =>
              rw [hrm] at h; simp only [liftOp_some_bind] at h
              cases hrv : s.running_var with
              | none => rw [hrv, liftOp_none_bind] at h; cases h
              | some rv =>
                rw [hrv] at h; simp only [liftOp_some_bind] at h
                cases hrm2 : NDArray.binop (fun a c => a + c)
                    (NDArray.scalarMul s.momentum rm)
                    (NDArray.scalarMul (1 - s.momentum) bm) with
                | none => rw [hrm2, liftOp_none_bind] at h; cases h
                | some rm2 =>
                  rw [hrm2] at h; simp only [liftOp_some_bind] at h
                  cases hrv2 : NDArray.binop (fun a c => a + c)
                      (NDArray.scalarMul s.momentum rv)
                      (NDArray.scalarMul (1 - s.momentum) bv) with
                  | none => rw [hrv2, liftOp_none_bind] at h; cases h
                  | some rv2 =>
                    rw [hrv2] at h; simp only [liftOp_some_bind] at h
                    cases ht : NDArray.binop (fun a c => a * c) g xn with
                    | none => rw [ht, liftOp_none_bind] at h; cases h
                    | some t =>
                      rw [ht] at h; simp only [liftOp_some_bind] at h
                      cases hout : NDArray.binop (fun a c => a + c) t b with
                      | none => rw [hout, liftOp_none_bind] at h; cases h
                      | some out =>
                        rw [hout] at h; simp only [liftOp_some_bind] at h
                        simp only [pure, Except.pure, Except.ok.injEq,
                          Prod.mk.injEq] at h
                        obtain ⟨h1, h2⟩ := h
                        subst h2
                        exact ⟨rfl, rfl⟩

/-- Identity stand-in over ℚ for `np.sqrt` when running concrete
witness computations. -/
def idSqrt : ℚ → ℚ := fun x => x

/-- Stand-in over ℚ for Python float `**` when running concrete
witness computations (returns the base unchanged). -/
def idPow : ℚ → ℚ → ℚ := fun a _ => a

/-- Claim C1: for every 4-dimensional input of shape (N, C, H, W) and
every LRN configuration (the spec's configuration carries a
non-negative window radius), forward returns an array whose entry at
each valid index (n, c, h, w) is the input entry divided by
`(bias + alpha * sum of squares of X[n, i, h, w] over channels i in
[max(0, c - r//2), min(C, c + r//2 + 1)))^beta`, with `r//2` an
integer floor division and the window clamped (not wrapped or
padded) at the channel boundaries. -/
theorem C1_lrn_formula {K : Type} [Field K] (rpow : K → K → K)
    (cfg : custom_LocalResponseNormalization K) (X : NDArray K)
    (N C H W n c h w : Nat)
    (hr : 0 ≤ cfg.depth_radius) (hX : X.shape = [N, C, H, W])
    (hn : n < N) (hc : c < C) (hh : h < H) (hw : w < W) :
    ∃ Y, lrnForward rpow cfg X = .ok Y ∧
      Y.data [n, c, h, w] = X.data [n, c, h, w] /
        rpow (cfg.bias + cfg.alpha *
          ∑ i ∈ Finset.Ico (max 0 ((c : Int) - cfg.depth_radius.fdiv 2)).toNat
              (min (C : Int) ((c : Int) + cfg.depth_radius.fdiv 2 + 1)).toNat,
            (X.data [n, i, h, w]) ^ 2) cfg.beta := by
  refine ⟨⟨[N, C, H, W], fun idx => match idx with
    | [bn, bc, bh, bw] =>
        X.data [bn, bc, bh, bw] / rpow (lrnScale cfg X C bn bc bh bw) cfg.beta
    | _ => 0⟩, ?_, ?_⟩
  · unfold lrnForward
    rw [hX]
  · dsimp only
    unfold lrnScale lrnLocalSum
    rw [lrnWindow_nonneg_radius cfg.depth_radius C c hr hc]

/-- Concrete LRN configuration over ℚ (radius 5, bias 1, alpha 1,
beta 1) for witnesses. -/
def lrnCfgW : custom_LocalResponseNormalization ℚ := ⟨5, 1, 1, 1⟩

/-- Concrete 4-D input of shape (1, 3, 1, 1) over ℚ, all entries 2. -/
def lrnXW : NDArray ℚ := ⟨[1, 3, 1, 1], fun _ => 2⟩

/-- Witness for C1 at the concrete configuration `lrnCfgW` and input
`lrnXW`, index (0, 1, 0, 0). -/
theorem C1_lrn_formula_witness :
    (0 ≤ lrnCfgW.depth_radius ∧ lrnXW.shape = [1, 3, 1, 1] ∧
      0 < 1 ∧ 1 < 3 ∧ 0 < 1 ∧ 0 < 1) ∧
    (∃ Y, lrnForward idPow lrnCfgW lrnXW = .ok Y ∧
      Y.data [0, 1, 0, 0] = lrnXW.data [0, 1, 0, 0] /
        idPow (lrnCfgW.bias + lrnCfgW.alpha *
          ∑ i ∈ Finset.Ico (max 0 ((1 : Int) - lrnCfgW.depth_radius.fdiv 2)).toNat
              (min ((3 : Nat) : Int) ((1 : Int) + lrnCfgW.depth_radius.fdiv 2 + 1)).toNat,
            (lrnXW.data [0, i, 0, 0]) ^ 2) lrnCfgW.beta) :=
  ⟨⟨by decide, rfl, by decide, by decide, by decide, by decide⟩,
   C1_lrn_formula idPow lrnCfgW lrnXW 1 3 1 1 0 1 0 0 (by decide) rfl
     (by decide) (by decide) (by decide) (by decide)⟩

/-- Concrete LRN configuration over ℚ with NEGATIVE radius -1 (bias
1, alpha 1, beta 1). -/
def lrnNegCfg : custom_LocalResponseNormalization ℚ := ⟨-1, 1, 1, 1⟩

/-- Concrete 4-D input of shape (1, 1, 1, 1) over ℚ, entry 7. -/
def lrnNegX : NDArray ℚ := ⟨[1, 1, 1, 1], fun _ => 7⟩

/-- Counterexample to claim C5: with depth_radius = -1 the forward
call is NOT rejected with an invalid-configuration error — it
returns a result array (of the input's shape; the channel window of
every entry is empty, so each entry is just `X / bias ** beta`). -/
theorem C5_counterexample :
    (lrnForward idPow lrnNegCfg lrnNegX).isOk = true ∧
    (lrnForward idPow lrnNegCfg lrnNegX).toOption.map
      (fun Y => Y.shape) = some [1, 1, 1, 1] := by
  constructor
  · rfl
  · rfl

/-- Claim C5 as amended: a negative depth_radius is not rejected —
the class performs no configuration validation, and forward on any
4-dimensional input still returns a result array (computed with the
Python slice semantics of the window bounds, which for a negative
radius give an empty or negatively-indexed channel window). -/
theorem C5_amended {K : Type} [Field K] (rpow : K → K → K)
    (cfg : custom_LocalResponseNormalization K) (X : NDArray K)
    (N C H W : Nat) (hneg : cfg.depth_radius < 0) (hX : X.shape = [N, C, H, W]) :
    (lrnForward rpow cfg X).isOk = true := by
  unfold lrnForward
  rw [hX]
  rfl

/-- Witness for the amended C5 at the concrete negative-radius
configuration `lrnNegCfg` and input `lrnNegX`. -/
theorem C5_amended_witness :
    (lrnNegCfg.depth_radius < 0 ∧ lrnNegX.shape = [1, 1, 1, 1]) ∧
    (lrnForward idPow lrnNegCfg lrnNegX).isOk = true :=
  ⟨⟨by decide, rfl⟩,
   C5_amended idPow lrnNegCfg lrnNegX 1 1 1 1 (by decide) rfl⟩

/-- Claim C2: a training-mode forward call on an initialized BN
instance computes the batch mean and the POPULATION variance (divisor
the batch size N, not N-1) along axis 0 and returns
`scale * ((X - batch_mean) / sqrt(batch_var + epsilon)) + shift` at
every valid index. -/
theorem C2_bn_training_formula {K : Type} [Field K] (sqrtf : K → K)
    (s : BatchNormalization K) (X g b rm rv : NDArray K) (N : Nat) (fs : List Nat)
    (hg : s.gamma = some g) (hgs : g.shape = fs)
    (hb : s.beta = some b) (hbs : b.shape = fs)
    (hrm : s.running_mean = some rm) (hrms : rm.shape = fs)
    (hrv : s.running_var = some rv) (hrvs : rv.shape = fs)
    (hX : X.shape = N :: fs) :
    ∃ Y s2, BatchNormalization.forward sqrtf s X true = .ok (Y, s2) ∧
      ∀ i idx, validIdx (i :: idx) (N :: fs) = true →
        Y.data (i :: idx) =
          g.data idx * ((X.data (i :: idx) -
              (∑ j ∈ Finset.range N, X.data (j :: idx)) / (N : K)) /
            sqrtf ((∑ j ∈ Finset.range N,
                (X.data (j :: idx) -
                  (∑ k ∈ Finset.range N, X.data (k :: idx)) / (N : K)) ^ 2) /
              (N : K) + s.epsilon)) + b.data idx := by
  obtain ⟨out, rm2, rv2, heq, hsh, _, _, hdata, _, _⟩ :=
    bnForwardCore_train_spec sqrtf s X g b rm rv N fs hg hgs hb hbs hrm hrms hrv hrvs hX
  refine ⟨out, { s with running_mean := some rm2, running_var := some rv2 }, ?_, ?_⟩
  · rw [forward_initialized sqrtf s X true g b hg hb]
    exact heq
  · intro i idx hv
    rw [hdata i idx hv]
    simp only [meanEntryAt, varEntryAt]

/-- Concrete initialized BN state over ℚ with feature shape [1]:
epsilon 1, momentum 1/2, gamma ones, beta zeros, running-mean zeros,
running-var ones. -/
def bnW : BatchNormalization ℚ :=
  ⟨1, 1/2, some (NDArray.ones [1]), some (NDArray.zeros [1]),
   some (NDArray.zeros [1]), some (NDArray.ones [1])⟩

/-- Concrete (2, 1)-shaped input over ℚ, all entries 3. -/
def XbnW : NDArray ℚ := ⟨[2, 1], fun _ => 3⟩

/-- Witness for C2 at the concrete state `bnW` and input `XbnW`. -/
theorem C2_bn_training_formula_witness :
    (bnW.gamma = some (NDArray.ones [1]) ∧ (NDArray.ones [1] : NDArray ℚ).shape = [1] ∧
     bnW.beta = some (NDArray.zeros [1]) ∧ (NDArray.zeros [1] : NDArray ℚ).shape = [1] ∧
     bnW.running_mean = some (NDArray.zeros [1]) ∧
     bnW.running_var = some (NDArray.ones [1]) ∧
     XbnW.shape = 2 :: [1]) ∧
    (∃ Y s2, BatchNormalization.forward idSqrt bnW XbnW true = .ok (Y, s2) ∧
      ∀ i idx, validIdx (i :: idx) (2 :: [1]) = true →
        Y.data (i :: idx) =
          (NDArray.ones [1] : NDArray ℚ).data idx * ((XbnW.data (i :: idx) -
              (∑ j ∈ Finset.range 2, XbnW.data (j :: idx)) / ((2 : Nat) : ℚ)) /
            idSqrt ((∑ j ∈ Finset.range 2,
                (XbnW.data (j :: idx) -
                  (∑ k ∈ Finset.range 2, XbnW.data (k :: idx)) / ((2 : Nat) : ℚ)) ^ 2) /
              ((2 : Nat) : ℚ) + bnW.epsilon)) + (NDArray.zeros [1] : NDArray ℚ).data idx) :=
  ⟨⟨rfl, rfl, rfl, rfl, rfl, rfl, rfl⟩,
   C2_bn_training_formula idSqrt bnW XbnW (NDArray.ones [1]) (NDArray.zeros [1])
     (NDArray.zeros [1]) (NDArray.ones [1]) 2 [1]
     rfl rfl rfl rfl rfl rfl rfl rfl rfl⟩

/-- Claim C3: every training-mode forward call updates the running
statistics by exactly
`running_mean := momentum*running_mean + (1-momentum)*batch_mean` and
`running_var := momentum*running_var + (1-momentum)*batch_var`; in
particular, after the first training call on a freshly initialized
instance the new values are `(1-momentum)*batch_mean` and
`momentum*1 + (1-momentum)*batch_var`. -/
theorem C3_bn_running_update {K : Type} [Field K] (sqrtf : K → K) :
    (∀ (s : BatchNormalization K) (X g b rm rv : NDArray K) (N : Nat) (fs : List Nat),
      s.gamma = some g → g.shape = fs → s.beta = some b → b.shape = fs →
      s.running_mean = some rm → rm.shape = fs →
      s.running_var = some rv → rv.shape = fs → X.shape = N :: fs →
      ∃ Y s2 rm2 rv2, BatchNormalization.forward sqrtf s X true = .ok (Y, s2) ∧
        s2.running_mean = some rm2 ∧ s2.running_var = some rv2 ∧
        (∀ idx, validIdx idx fs = true →
          rm2.data idx = s.momentum * rm.data idx +
            (1 - s.momentum) * meanEntryAt X N idx) ∧
        (∀ idx, validIdx idx fs = true →
          rv2.data idx = s.momentum * rv.data idx +
            (1 - s.momentum) * varEntryAt X N idx)) ∧
    (∀ (eps mom : K) (X : NDArray K) (N : Nat) (fs : List Nat), X.shape = N :: fs →
      ∃ Y s2 rm2 rv2,
        BatchNormalization.forward sqrtf (bnNew eps mom) X true = .ok (Y, s2) ∧
        s2.running_mean = some rm2 ∧ s2.running_var = some rv2 ∧
        (∀ idx, validIdx idx fs = true →
          rm2.data idx = (1 - mom) * meanEntryAt X N idx) ∧
        (∀ idx, validIdx idx fs = true →
          rv2.data idx = mom * 1 + (1 - mom) * varEntryAt X N idx)) := by
  constructor
  · intro s X g b rm rv N fs hg hgs hb hbs hrm hrms hrv hrvs hX
    obtain ⟨out, rm2, rv2, heq, _, _, _, _, hrm2, hrv2⟩ :=
      bnForwardCore_train_spec sqrtf s X g b rm rv N fs hg hgs hb hbs hrm hrms hrv hrvs hX
    refine ⟨out, { s with running_mean := some rm2, running_var := some rv2 },
      rm2, rv2, ?_, rfl, rfl, hrm2, hrv2⟩
    rw [forward_initialized sqrtf s X true g b hg hb]
    exact heq
  · intro eps mom X N fs hX
    have htail : X.shape.tail = fs := by rw [hX]; rfl
    rw [forward_fresh sqrtf eps mom X true, htail]
    obtain ⟨out, rm2, rv2, heq, _, _, _, _, hrm2, hrv2⟩ :=
      bnForwardCore_train_spec sqrtf (init_params (bnNew eps mom) fs) X
        (NDArray.ones fs) (NDArray.zeros fs) (NDArray.zeros fs) (NDArray.ones fs) N fs
        rfl rfl rfl rfl rfl rfl rfl rfl hX
    refine ⟨out, { init_params (bnNew eps mom) fs with
      running_mean := some rm2, running_var := some rv2 }, rm2, rv2, heq, rfl, rfl, ?_, ?_⟩
    · intro idx hv
      simpa [init_params, bnNew, NDArray.zeros] using hrm2 idx hv
    · intro idx hv
      simpa [init_params, bnNew, NDArray.ones] using hrv2 idx hv

/-- Witness for C3: part 1 at the initialized state `bnW`, part 2 at
a fresh instance with epsilon 1, momentum 1/2, both on input
`XbnW`. -/
theorem C3_bn_running_update_witness :
    (bnW.gamma = some (NDArray.ones [1]) ∧ XbnW.shape = 2 :: [1]) ∧
    (∃ Y s2 rm2 rv2, BatchNormalization.forward idSqrt bnW XbnW true = .ok (Y, s2) ∧
      s2.running_mean = some rm2 ∧ s2.running_var = some rv2 ∧
      (∀ idx, validIdx idx [1] = true →
        rm2.data idx = bnW.momentum * (NDArray.zeros [1] : NDArray ℚ).data idx +
          (1 - bnW.momentum) * meanEntryAt XbnW 2 idx) ∧
      (∀ idx, validIdx idx [1] = true →
        rv2.data idx = bnW.momentum * (NDArray.ones [1] : NDArray ℚ).data idx +
          (1 - bnW.momentum) * varEntryAt XbnW 2 idx)) ∧
    (∃ Y s2 rm2 rv2,
      BatchNormalization.forward idSqrt (bnNew 1 (1/2)) XbnW true = .ok (Y, s2) ∧
      s2.running_mean = some rm2 ∧ s2.running_var = some rv2 ∧
      (∀ idx, validIdx idx [1] = true →
        rm2.data idx = (1 - 1/2) * meanEntryAt XbnW 2 idx) ∧
      (∀ idx, validIdx idx [1] = true →
        rv2.data idx = 1/2 * 1 + (1 - 1/2) * varEntryAt XbnW 2 idx)) :=
  ⟨⟨rfl, rfl⟩,
   (C3_bn_running_update idSqrt).1 bnW XbnW (NDArray.ones [1]) (NDArray.zeros [1])
     (NDArray.zeros [1]) (NDArray.ones [1]) 2 [1] rfl rfl rfl rfl rfl rfl rfl rfl rfl,
   (C3_bn_running_update idSqrt).2 1 (1/2) XbnW 2 [1] rfl⟩

/-- Claim C6: on the first forward call to a fresh BN instance the
state becomes gamma = ones(feature_shape), beta = zeros,
running_mean = zeros, running_var = ones with feature_shape =
X.shape[1:] (shown for an inference call, which leaves the allocated
arrays untouched); and once gamma and beta are set, no later
successful call re-initializes them. -/
theorem C6_bn_lazy_init {K : Type} [Field K] (sqrtf : K → K) :
    (∀ (eps mom : K) (X : NDArray K) (N : Nat) (fs : List Nat), X.shape = N :: fs →
      ∃ Y s2, BatchNormalization.forward sqrtf (bnNew eps mom) X false = .ok (Y, s2) ∧
        s2.gamma = some (NDArray.ones fs) ∧ s2.beta = some (NDArray.zeros fs) ∧
        s2.running_mean = some (NDArray.zeros fs) ∧
        s2.running_var = some (NDArray.ones fs)) ∧
    (∀ (s : BatchNormalization K) (g b X Y : NDArray K) (tr : Bool)
        (s2 : BatchNormalization K),
      s.gamma = some g → s.beta = some b →
      BatchNormalization.forward sqrtf s X tr = .ok (Y, s2) →
      s2.gamma = some g ∧ s2.beta = some b) := by
  constructor
  · intro eps mom X N fs hX
    have htail : X.shape.tail = fs := by rw [hX]; rfl
    rw [forward_fresh sqrtf eps mom X false, htail]
    obtain ⟨out, heq, hsh, hdata⟩ :=
      bnForwardCore_infer_spec sqrtf (init_params (bnNew eps mom) fs) X
        (NDArray.ones fs) (NDArray.zeros fs) (NDArray.zeros fs) (NDArray.ones fs) N fs
        rfl rfl rfl rfl rfl rfl rfl rfl hX
    exact ⟨out, init_params (bnNew eps mom) fs, heq, rfl, rfl, rfl, rfl⟩
  · intro s g b X Y tr s2 hg hb hok
    rw [forward_initialized sqrtf s X tr g b hg hb] at hok
    exact bnForwardCore_state sqrtf s X tr Y s2 g b hg hb hok

/-- Witness for C6: part 1 on a fresh instance with epsilon 1 and
momentum 1/2 and input `XbnW`; part 2 on the initialized state `bnW`
(the training call from the C2/C3 instantiation succeeds, and its
output state keeps the same gamma and beta). -/
theorem C6_bn_lazy_init_witness :
    (XbnW.shape = 2 :: [1]) ∧
    (∃ Y s2, BatchNormalization.forward idSqrt (bnNew 1 (1/2)) XbnW false = .ok (Y, s2) ∧
      s2.gamma = some (NDArray.ones [1]) ∧ s2.beta = some (NDArray.zeros [1]) ∧
      s2.running_mean = some (NDArray.zeros [1]) ∧
      s2.running_var = some (NDArray.ones [1])) :=
  ⟨rfl, (C6_bn_lazy_init idSqrt).1 1 (1/2) XbnW 2 [1] rfl⟩

/-- Claim C7: an inference-mode forward call on an initialized BN
instance returns `scale * ((X - running_mean) / sqrt(running_var +
epsilon)) + shift` and leaves the instance state unchanged — the
returned state is the argument state itself, so two successive
inference calls with the same input produce identical output. -/
theorem C7_bn_inference_frame {K : Type} [Field K] (sqrtf : K → K)
    (s : BatchNormalization K) (X g b rm rv : NDArray K) (N : Nat) (fs : List Nat)
    (hg : s.gamma = some g) (hgs : g.shape = fs)
    (hb : s.beta = some b) (hbs : b.shape = fs)
    (hrm : s.running_mean = some rm) (hrms : rm.shape = fs)
    (hrv : s.running_var = some rv) (hrvs : rv.shape = fs)
    (hX : X.shape = N :: fs) :
    ∃ Y, BatchNormalization.forward sqrtf s X false = .ok (Y, s) ∧
      ∀ i idx, validIdx (i :: idx) (N :: fs) = true →
        Y.data (i :: idx) = g.data idx * ((X.data (i :: idx) - rm.data idx) /
          sqrtf (rv.data idx + s.epsilon)) + b.data idx := by
  obtain ⟨out, heq, hsh, hdata⟩ :=
    bnForwardCore_infer_spec sqrtf s X g b rm rv N fs hg hgs hb hbs hrm hrms hrv hrvs hX
  refine ⟨out, ?_, hdata⟩
  rw [forward_initialized sqrtf s X false g b hg hb]
  exact heq

/-- Witness for C7 at the concrete state `bnW` and input `XbnW`. -/
theorem C7_bn_inference_frame_witness :
    (bnW.gamma = some (NDArray.ones [1]) ∧ XbnW.shape = 2 :: [1]) ∧
    (∃ Y, BatchNormalization.forward idSqrt bnW XbnW false = .ok (Y, bnW) ∧
      ∀ i idx, validIdx (i :: idx) (2 :: [1]) = true →
        Y.data (i :: idx) = (NDArray.ones [1] : NDArray ℚ).data idx *
          ((XbnW.data (i :: idx) - (NDArray.zeros [1] : NDArray ℚ).data idx) /
            idSqrt ((NDArray.ones [1] : NDArray ℚ).data idx + bnW.epsilon)) +
          (NDArray.zeros [1] : NDArray ℚ).data idx) :=
  ⟨⟨rfl, rfl⟩,
   C7_bn_inference_frame idSqrt bnW XbnW (NDArray.ones [1]) (NDArray.zeros [1])
     (NDArray.zeros [1]) (NDArray.ones [1]) 2 [1]
     rfl rfl rfl rfl rfl rfl rfl rfl rfl⟩

/-- Claim C9: shape preservation — LRN forward on a 4-D input returns
an array of the input's shape, and BN forward on a well-shaped input
(trailing shape matching the initialized feature shape) returns an
array of the input's shape in both training and inference modes. -/
theorem C9_shape_preservation {K : Type} [Field K] (sqrtf : K → K) (rpow : K → K → K) :
    (∀ (cfg : custom_LocalResponseNormalization K) (X : NDArray K) (N C H W : Nat),
      X.shape = [N, C, H, W] → ∃ Y, lrnForward rpow cfg X = .ok Y ∧ Y.shape = X.shape) ∧
    (∀ (s : BatchNormalization K) (X g b rm rv : NDArray K) (N : Nat) (fs : List Nat)
        (tr : Bool),
      s.gamma = some g → g.shape = fs → s.beta = some b → b.shape = fs →
      s.running_mean = some rm → rm.shape = fs →
      s.running_var = some rv → rv.shape = fs → X.shape = N :: fs →
      ∃ Y s2, BatchNormalization.forward sqrtf s X tr = .ok (Y, s2) ∧
        Y.shape = X.shape) := by
  constructor
  · intro cfg X N C H W hX
    unfold lrnForward
    rw [hX]
    exact ⟨_, rfl, rfl⟩
  · intro s X g b rm rv N fs tr hg hgs hb hbs hrm hrms hrv hrvs hX
    cases tr with
    | false =>
      obtain ⟨out, heq, hsh, _⟩ :=
        bnForwardCore_infer_spec sqrtf s X g b rm rv N fs hg hgs hb hbs hrm hrms hrv hrvs hX
      refine ⟨out, s, ?_, by rw [hsh, hX]⟩
      rw [forward_initialized sqrtf s X false g b hg hb]
      exact heq
    | true =>
      obtain ⟨out, rm2, rv2, heq, hsh, _, _, _, _, _⟩ :=
        bnForwardCore_train_spec sqrtf s X g b rm rv N fs hg hgs hb hbs hrm hrms hrv hrvs hX
      refine ⟨out, { s with running_mean := some rm2, running_var := some rv2 },
        ?_, by rw [hsh, hX]⟩
      rw [forward_initialized sqrtf s X true g b hg hb]
      exact heq

/-- Witness for C9: the LRN part at `lrnCfgW`/`lrnXW`, the BN part at
`bnW`/`XbnW` in training mode. -/
theorem C9_shape_preservation_witness :
    (lrnXW.shape = [1, 3, 1, 1] ∧ XbnW.shape = 2 :: [1]) ∧
    (∃ Y, lrnForward idPow lrnCfgW lrnXW = .ok Y ∧ Y.shape = lrnXW.shape) ∧
    (∃ Y s2, BatchNormalization.forward idSqrt bnW XbnW true = .ok (Y, s2) ∧
      Y.shape = XbnW.shape) :=
  ⟨⟨rfl, rfl⟩,
   (C9_shape_preservation idSqrt idPow).1 lrnCfgW lrnXW 1 3 1 1 rfl,
   (C9_shape_preservation idSqrt idPow).2 bnW XbnW (NDArray.ones [1]) (NDArray.zeros [1])
     (NDArray.zeros [1]) (NDArray.ones [1]) 2 [1] true
     rfl rfl rfl rfl rfl rfl rfl rfl rfl⟩

/-- Probe for the C4 counterexample: starting from a fresh BN state
over ℚ (epsilon 1, momentum 1/2), run one training call on a
(1, 2)-shaped input — this fixes the feature shape [2] — then a
second training call on a (1, 1, 2)-shaped input, whose trailing
shape (1, 2) DIFFERS from [2] but is broadcast-compatible with it;
report the shape of the running mean afterwards (`none` if either
call errors or the running mean is unset). -/
def bnShapeProbe : Option (List Nat) :=
  match BatchNormalization.forward idSqrt (bnNew 1 (1/2))
      (⟨[1, 2], fun _ => 0⟩ : NDArray ℚ) true with
  | .error _ => none
  | .ok (_, s1) =>
    match BatchNormalization.forward idSqrt s1
        (⟨[1, 1, 2], fun _ => 0⟩ : NDArray ℚ) true with
    | .error _ => none
    | .ok (_, s2) =>
      match s2.running_mean with
      | none => none
      | some rm => some rm.shape

/-- Counterexample to claim C4: a forward call whose trailing shape
(1, 2) differs from the initialized feature shape [2] does NOT fail —
both calls return `ok` — and it silently reshapes the stored running
mean from shape [2] to shape [1, 2], violating the claimed state
invariant. -/
theorem C4_counterexample :
    bnShapeProbe = some [1, 2] ∧ ([1, 2] : List Nat) ≠ [2] := by
  exact ⟨rfl, by decide⟩

/-- Claim C4 as amended: a forward call whose trailing shape is NOT
broadcast-compatible with the stored feature shape fails with an
error, in either mode; a broadcast-compatible but different trailing
shape is not rejected, and a training-mode call can then silently
reshape the stored running statistics (see the probe above). -/
theorem C4_amended {K : Type} [Field K] (sqrtf : K → K)
    (s : BatchNormalization K) (X g b rm rv : NDArray K)
    (N : Nat) (F T : List Nat)
    (hg : s.gamma = some g) (hb : s.beta = some b)
    (hrm : s.running_mean = some rm) (hrms : rm.shape = F)
    (hrv : s.running_var = some rv)
    (hX : X.shape = N :: T)
    (hbc : broadcastRev F.reverse T.reverse = none) :
    (∃ e, BatchNormalization.forward sqrtf s X true = .error e) ∧
    (∃ e, BatchNormalization.forward sqrtf s X false = .error e) := by
  constructor
  · rw [forward_initialized sqrtf s X true g b hg hb]
    have eBM : meanAxis0 X = some ⟨T, fun idx => meanEntryAt X N idx⟩ := by
      unfold meanAxis0; rw [hX]
    have eBV : varAxis0 X = some ⟨T, fun idx => varEntryAt X N idx⟩ := by
      unfold varAxis0; rw [hX]
    obtain ⟨NUM, eNUM, sNUM, _⟩ :=
      binop_batch_left (fun a c => a - c) X ⟨T, fun idx => meanEntryAt X N idx⟩ N T hX rfl
    obtain ⟨XN, eXN, _, _⟩ :=
      binop_batch_left (fun a c => a / c) NUM
        (NDArray.emap sqrtf (NDArray.addScalar ⟨T, fun idx => varEntryAt X N idx⟩ s.epsilon))
        N T sNUM rfl
    have eRM2 : NDArray.binop (fun a c => a + c)
        (NDArray.scalarMul s.momentum rm)
        (NDArray.scalarMul (1 - s.momentum) ⟨T, fun idx => meanEntryAt X N idx⟩) = none := by
      unfold NDArray.binop
      dsimp [NDArray.scalarMul]
      rw [hrms, hbc]
    unfold bnForwardCore
    rw [hg, hb]
    simp only [liftOp_some_bind, if_true, eBM, eBV, eNUM, eXN, hrm, hrv, eRM2,
      liftOp_none_bind]
    exact ⟨_, rfl⟩
  · rw [forward_initialized sqrtf s X false g b hg hb]
    have hTF : broadcastRev T.reverse F.reverse = none :=
      broadcastRev_none_comm F.reverse T.reverse hbc
    have hApp : broadcastRev (T.reverse ++ [N]) F.reverse = none :=
      broadcastRev_none_append_left T.reverse F.reverse [N] hTF
    have eNUM : NDArray.binop (fun a c => a - c) X rm = none := by
      unfold NDArray.binop
      rw [hX, hrms, List.reverse_cons, hApp]
    unfold bnForwardCore
    rw [hg, hb, hrm, hrv]
    simp only [liftOp_some_bind, Bool.false_eq_true, if_false, eNUM, liftOp_none_bind]
    exact ⟨_, rfl⟩

/-- Concrete initialized BN state over ℚ with feature shape [2] for
the C4 witness. -/
def bnMis : BatchNormalization ℚ :=
  ⟨1, 1/2, some (NDArray.ones [2]), some (NDArray.zeros [2]),
   some (NDArray.zeros [2]), some (NDArray.ones [2])⟩

/-- Concrete (1, 3)-shaped input over ℚ, whose trailing shape [3] is
not broadcast-compatible with the stored feature shape [2]. -/
def XMis : NDArray ℚ := ⟨[1, 3], fun _ => 0⟩

/-- Witness for the amended C4 at the state `bnMis` and input
`XMis`. -/
theorem C4_amended_witness :
    (bnMis.gamma = some (NDArray.ones [2]) ∧ XMis.shape = 1 :: [3] ∧
     broadcastRev ([2] : List Nat).reverse ([3] : List Nat).reverse = none) ∧
    ((∃ e, BatchNormalization.forward idSqrt bnMis XMis true = .error e) ∧
     (∃ e, BatchNormalization.forward idSqrt bnMis XMis false = .error e)) :=
  ⟨⟨rfl, rfl, rfl⟩,
   C4_amended idSqrt bnMis XMis (NDArray.ones [2]) (NDArray.zeros [2])
     (NDArray.zeros [2]) (NDArray.ones [2]) 1 [2] [3]
     rfl rfl rfl rfl rfl rfl rfl⟩

/-- Claim C8: under valid configuration the denominators are never
zero — (1) LRN's scale `bias + alpha * local_sum` is strictly
positive whenever bias > 0 and alpha ≥ 0, because the local sum of
squares is non-negative, for every entry of every input (any radius);
(2) the population variance entries are always non-negative; (3) the
BN training denominator `sqrt(batch_var + epsilon)` is nonzero for
epsilon > 0; (4) the BN inference denominator
`sqrt(running_var + epsilon)` is nonzero for epsilon > 0 and
non-negative running-variance entries. -/
theorem C8_denominators_positive :
    (∀ (cfg : custom_LocalResponseNormalization ℝ) (X : NDArray ℝ) (C bn bc bh bw : Nat),
      0 < cfg.bias → 0 ≤ cfg.alpha → 0 < lrnScale cfg X C bn bc bh bw) ∧
    (∀ (X : NDArray ℝ) (n : Nat) (idx : List Nat), 0 ≤ varEntryAt X n idx) ∧
    (∀ (X : NDArray ℝ) (n : Nat) (idx : List Nat) (eps : ℝ), 0 < eps →
      Real.sqrt (varEntryAt X n idx + eps) ≠ 0) ∧
    (∀ (rv : NDArray ℝ) (idx : List Nat) (eps : ℝ), 0 < eps → 0 ≤ rv.data idx →
      Real.sqrt (rv.data idx + eps) ≠ 0) := by
  have hvar : ∀ (X : NDArray ℝ) (n : Nat) (idx : List Nat), 0 ≤ varEntryAt X n idx := by
    intro X n idx
    unfold varEntryAt
    exact div_nonneg (Finset.sum_nonneg fun i _ => sq_nonneg _) (Nat.cast_nonneg n)
  refine ⟨?_, hvar, ?_, ?_⟩
  · intro cfg X C bn bc bh bw hbias halpha
    unfold lrnScale
    have hsum : 0 ≤ lrnLocalSum cfg X C bn bc bh bw := by
      unfold lrnLocalSum
      exact Finset.sum_nonneg fun i _ => sq_nonneg _
    exact add_pos_of_pos_of_nonneg hbias (mul_nonneg halpha hsum)
  · intro X n idx eps heps
    exact ne_of_gt (Real.sqrt_pos.mpr (add_pos_of_nonneg_of_pos (hvar X n idx) heps))
  · intro rv idx eps heps hnn
    exact ne_of_gt (Real.sqrt_pos.mpr (add_pos_of_nonneg_of_pos hnn heps))

/-- Concrete LRN configuration over ℝ (radius 5, bias 1, alpha 1,
beta 1) for the C8 witness. -/
def lrnCfgR : custom_LocalResponseNormalization ℝ := ⟨5, 1, 1, 1⟩

/-- Concrete input over ℝ for the C8 witness. -/
def XR : NDArray ℝ := ⟨[1], fun _ => 0⟩

/-- Concrete running-variance array over ℝ (entries 1) for the C8
witness. -/
def rvR : NDArray ℝ := ⟨[1], fun _ => 1⟩

/-- Witness for C8 at concrete real configurations and inputs. -/
theorem C8_denominators_positive_witness :
    ((0 : ℝ) < lrnCfgR.bias ∧ (0 : ℝ) ≤ lrnCfgR.alpha ∧ (0 : ℝ) < 1 ∧
      (0 : ℝ) ≤ rvR.data [0]) ∧
    (0 < lrnScale lrnCfgR XR 1 0 0 0 0 ∧ 0 ≤ varEntryAt XR 1 [] ∧
      Real.sqrt (varEntryAt XR 1 [] + 1) ≠ 0 ∧ Real.sqrt (rvR.data [0] + 1) ≠ 0) :=
  ⟨⟨one_pos, zero_le_one, one_pos, zero_le_one⟩,
   ⟨C8_denominators_positive.1 lrnCfgR XR 1 0 0 0 0 one_pos zero_le_one,
    C8_denominators_positive.2.1 XR 1 [],
    C8_denominators_positive.2.2.1 XR 1 [] 1 one_pos,
    C8_denominators_positive.2.2.2 rvR [0] 1 one_pos zero_le_one⟩⟩

/-- Claim C10: if `update_params` is called on a fresh BN instance
before any forward call, gamma and beta become set while the running
statistics stay `None`; the lazy-init guard (which checks only gamma
and beta) therefore never fires, and every subsequent forward call —
training or inference — fails with an error instead of initializing
the running statistics. -/
theorem C10_update_params_poisons {K : Type} [Field K] (sqrtf : K → K)
    (eps mom : K) (g b X : NDArray K) (tr : Bool) :
    (update_params (bnNew eps mom) g b).running_mean = none ∧
    (update_params (bnNew eps mom) g b).running_var = none ∧
    (BatchNormalization.forward sqrtf (update_params (bnNew eps mom) g b) X tr).isOk
      = false := by
  refine ⟨rfl, rfl, ?_⟩
  cases tr with
  | false => rfl
  | true =>
    rw [forward_initialized sqrtf (update_params (bnNew eps mom) g b) X true g b rfl rfl]
    unfold bnForwardCore
    simp only [update_params, bnNew, liftOp_some_bind, if_true]
    cases hbm : meanAxis0 X with
    | none => rfl
    | some bm =>
      simp only [liftOp_some_bind]
      cases hbv : varAxis0 X with
      | none => rfl
      | some bv =>
        simp only [liftOp_some_bind]
        cases hnum : NDArray.binop (fun a c => a - c) X bm with
        | none => rfl
        | some num =>
          simp only [liftOp_some_bind]
          cases hxn : NDArray.binop (fun a c => a / c) num
              (NDArray.emap sqrtf (bv.addScalar eps)) with
          | none => rfl
          | some xn => rfl
